import Mathlib

/-!
Verification of the entity-relationship-extractor pipeline.

Shallow embedding of the core pipeline of the repository:
`smart_entity_extractor.py` (span correction and deduplication),
`wikidata_client.py` (identity resolution, relationship discovery,
tie-break selection, transport-failure handling) and
`enhanced_relationship_extractor.py` (pair enumeration, triplet
assembly, in-degree annotation).

Text is modelled as `List Char` (Python `str`).  External collaborators
(the spaCy NLP model and the Wikidata HTTP API) are modelled as function
parameters, matching the interface boundary of the spec.  The
`networkx.DiGraph` used for in-degree computation is modelled by an
explicit node/edge structure with the same simple-digraph semantics
(no parallel edges; `add_edge` inserts missing endpoints as nodes;
`in_degree` of an absent node raises, modelled as `Option`).
-/

namespace ERX

/-- Python strings, modelled as lists of characters. -/
abbrev Str := List Char

/-- Shorthand turning a Lean string literal into the `Str` model. -/
def str (s : String) : Str := s.data

/-- `EntitySpan`: the entity dictionaries produced by the NLP collaborator
and the correction pass (`text`, `label`, `start`, `end` keys; the `end`
key is rendered `stop` because `end` is a Lean keyword). -/
structure Ent where
  text : Str
  label : Str
  start : Nat
  stop : Nat
deriving DecidableEq, Repr

/-- `RelationshipFact`: one dictionary of the list returned by
`WikidataClient.get_relationships` (`predicate`, `predicate_pid` keys). -/
structure Fact where
  predicate : Str
  predicate_pid : Str
deriving DecidableEq, Repr

/-- `ResolvedEntity`: an entity dictionary after `process_entities`
copied it and added the `qid` and `wikidata_label` keys.  The copied
span fields are kept as one `span` component. -/
structure Resolved where
  span : Ent
  qid : Str
  wikidata_label : Str
deriving DecidableEq, Repr

/-- A relationship triplet as assembled by
`EnhancedRelationshipExtractor.extract_relationships` before in-degree
annotation. -/
structure Triplet where
  subject : Str
  subject_qid : Str
  predicate : Str
  predicate_pid : Str
  object : Str
  object_qid : Str
deriving DecidableEq, Repr

/-- A triplet after `_add_in_degree_info` copied it and added the
`subject_in_degree` and `object_in_degree` keys. -/
structure TripletD where
  base : Triplet
  subject_in_degree : Nat
  object_in_degree : Nat
deriving DecidableEq, Repr

/-! ## `WikidataClient.get_shortest_relationship`

`min(relationships, key=lambda x: len(x['predicate']))`: Python `min`
scans left to right and replaces the running best only on a strictly
smaller key, so the first minimal-length element wins. -/

/-- The scan performed by Python `min` with key `len(x['predicate'])`:
fold over the tail, keeping the current best unless a strictly shorter
predicate label appears. -/
def pymin (b : Fact) (l : List Fact) : Fact :=
  l.foldl (fun best y =>
    if y.predicate.length < best.predicate.length then y else best) b

/-- `WikidataClient.get_shortest_relationship`: `None` on an empty list,
otherwise Python `min` by predicate-label length. -/
def get_shortest_relationship (relationships : List Fact) : Option Fact :=
  match relationships with
  | [] => none
  | x :: xs => some (pymin x xs)

/-- `f` occurs in `l` with every earlier element strictly longer and
every later element at least as long: `f` is the first minimal-length
fact of `l` in encounter order. -/
def IsFirstMin (l : List Fact) (f : Fact) : Prop :=
  ∃ l₁ l₂, l = l₁ ++ f :: l₂ ∧
    (∀ y ∈ l₁, f.predicate.length < y.predicate.length) ∧
    (∀ y ∈ l₂, f.predicate.length ≤ y.predicate.length)

theorem pymin_firstMin (l : List Fact) (b : Fact) :
    IsFirstMin (b :: l) (pymin b l) := by
  induction l generalizing b with
  | nil => exact ⟨[], [], rfl, by simp, by simp⟩
  | cons y ys ih =>
    have hstep : pymin b (y :: ys) =
        pymin (if y.predicate.length < b.predicate.length then y else b) ys := rfl
    rw [hstep]
    by_cases hy : y.predicate.length < b.predicate.length
    · -- the head of the tail strictly improves on the accumulator
      rw [if_pos hy]
      obtain ⟨l₁, l₂, hdec, hlt, hle⟩ := ih y
      -- the running minimum is bounded by the new accumulator y
      have hm : (pymin y ys).predicate.length ≤ y.predicate.length := by
        cases l₁ with
        | nil =>
          simp only [List.nil_append] at hdec
          injection hdec with h1 _
          rw [← h1]
        | cons a t =>
          rw [List.cons_append] at hdec
          injection hdec with h1 _
          have hb := congrArg (fun f => f.predicate.length) h1
          simp only at hb
          have := hlt a (List.mem_cons_self _ _)
          omega
      refine ⟨b :: l₁, l₂, by rw [List.cons_append, ← hdec], ?_, hle⟩
      intro z hz
      rcases List.mem_cons.mp hz with hz | hz
      · subst hz; omega
      · exact hlt z hz
    · -- the accumulator survives the head comparison
      rw [if_neg hy]
      obtain ⟨l₁, l₂, hdec, hlt, hle⟩ := ih b
      cases l₁ with
      | nil =>
        -- the final minimum is the accumulator itself
        simp only [List.nil_append] at hdec
        injection hdec with h1 h2
        have hb := congrArg (fun f => f.predicate.length) h1
        simp only at hb
        refine ⟨[], y :: ys, by rw [List.nil_append, ← h1], by simp, ?_⟩
        intro z hz
        rcases List.mem_cons.mp hz with hz | hz
        · subst hz; omega
        · have := hle z (h2 ▸ hz); omega
      | cons a t =>
        -- the final minimum comes from deeper in the tail
        rw [List.cons_append] at hdec
        injection hdec with h1 h2
        have hb := congrArg (fun f => f.predicate.length) h1
        simp only at hb
        have hmb : (pymin b ys).predicate.length < b.predicate.length := by
          have := hlt a (List.mem_cons_self _ _)
          omega
        refine ⟨b :: y :: t, l₂, ?_, ?_, hle⟩
        · exact congrArg (fun l => b :: y :: l) h2
        · intro z hz
          rcases List.mem_cons.mp hz with hz | hz
          · subst hz; exact hmb
          · rcases List.mem_cons.mp hz with hz | hz
            · subst hz; omega
            · exact hlt z (List.mem_cons_of_mem _ hz)

/-! ## `SmartEntityExtractor` (`smart_entity_extractor.py`)

The spaCy model is an external collaborator; it enters the embedding as
a function parameter `nlp : Str → List Ent`. -/

/-- Python `\s` on the ASCII range (the whitespace class used by
`re.search` and `str.strip`/`str.split` defaults). -/
def isPySpace (c : Char) : Bool :=
  c = ' ' || c = '\t' || c = '\n' || c = '\r' || c = '\x0b' || c = '\x0c'

/-- Python `str.lower` (ASCII behaviour). -/
def pyLower (s : Str) : Str := s.map Char.toLower

/-- Python `str.strip()` with no argument: remove leading and trailing
whitespace. -/
def pyStrip (s : Str) : Str :=
  ((s.dropWhile isPySpace).reverse.dropWhile isPySpace).reverse

/-- The normalized deduplication key of `_remove_duplicates`:
`entity['text'].lower().strip()`. -/
def entKey (entity : Ent) : Str := pyStrip (pyLower entity.text)

/-- Does `s` start with `pat`? (helper for Python `in` on strings). -/
def startsWithCs : Str → Str → Bool
  | [], _ => true
  | _ :: _, [] => false
  | p :: ps, c :: cs => p = c && startsWithCs ps cs

/-- Python substring containment `pat in hay`. -/
def containsSub : Str → Str → Bool
  | [], pat => pat.isEmpty
  | c :: t, pat => startsWithCs pat (c :: t) || containsSub t pat

/-- Match a literal at the head of the input, returning the rest. -/
def matchLit : Str → Str → Option Str
  | [], s => some s
  | _ :: _, [] => none
  | p :: ps, c :: cs => if c = p then matchLit ps cs else none

/-- Match `\s+` (greedy; the following literal is never whitespace, so
maximal munch is exact). -/
def wsPlus : Str → Option Str
  | [] => none
  | c :: cs => if isPySpace c then some (cs.dropWhile isPySpace) else none

/-- Match the regex `Charles Dillon\s+"Casey"\s+Stengel` at the head of
`s`, returning the length of the match. -/
def caseyAt (s : Str) : Option Nat :=
  match matchLit (str "Charles Dillon") s with
  | none => none
  | some r1 =>
    match wsPlus r1 with
    | none => none
    | some r2 =>
      match matchLit (str "\"Casey\"") r2 with
      | none => none
      | some r3 =>
        match wsPlus r3 with
        | none => none
        | some r4 =>
          match matchLit (str "Stengel") r4 with
          | none => none
          | some r5 => some (s.length - r5.length)

/-- Leftmost-match scan of `re.search`, carrying the current offset. -/
def caseySearchAux : Str → Nat → Option (Nat × Nat)
  | [], _ => none
  | c :: t, i =>
    match caseyAt (c :: t) with
    | some len => some (i, i + len)
    | none => caseySearchAux t (i + 1)

/-- `re.search(r'Charles Dillon\s+"Casey"\s+Stengel', text)` and
`.span()` of the match, if any. -/
def caseySearch (s : Str) : Option (Nat × Nat) := caseySearchAux s 0

/-- The loop body of `_fix_brooklyn_dodgers`: rewrite the `text` field
when it contains `Brooklyn Dodgers`. -/
def brooklyn_fix_one (entity : Ent) : Ent :=
  if containsSub entity.text (str "Brooklyn Dodgers")
  then { entity with text := str "Los Angeles Dodgers" } else entity

/-- `SmartEntityExtractor._fix_brooklyn_dodgers`. -/
def fix_brooklyn_dodgers (entities : List Ent) : List Ent :=
  entities.map brooklyn_fix_one

/-- The loop body of `_fix_baseball_hall_of_fame`: rewrite the `label`
field to `FAC` when the text contains `Baseball Hall of Fame`. -/
def hall_fix_one (entity : Ent) : Ent :=
  if containsSub entity.text (str "Baseball Hall of Fame")
  then { entity with label := str "FAC" } else entity

/-- `SmartEntityExtractor._fix_baseball_hall_of_fame`. -/
def fix_baseball_hall_of_fame (entities : List Ent) : List Ent :=
  entities.map hall_fix_one

/-- The removal test of `_apply_smart_corrections`:
`start <= entity['start'] < end or start < entity['end'] <= end`. -/
def overlapsCaseyRegion (s e : Nat) (ent : Ent) : Bool :=
  (decide (s ≤ ent.start) && decide (ent.start < e)) ||
  (decide (s < ent.stop) && decide (ent.stop ≤ e))

/-- `SmartEntityExtractor._apply_smart_corrections`: collapse the
Casey-Stengel pattern region, then apply the alias and type fixes. -/
def apply_smart_corrections (text : Str) (entities : List Ent) : List Ent :=
  let corrected_entities :=
    match caseySearch text with
    | some (s, e) =>
      { text := str "Casey Stengel", label := str "PERSON",
        start := s, stop := e } ::
        entities.filter (fun ent => !(overlapsCaseyRegion s e ent))
    | none => entities
  fix_baseball_hall_of_fame (fix_brooklyn_dodgers corrected_entities)

/-- `SmartEntityExtractor._remove_duplicates`, with the `seen` set made
an explicit accumulator. -/
def remove_duplicates_aux (seen : List Str) : List Ent → List Ent
  | [] => []
  | entity :: rest =>
    if entKey entity ∈ seen then remove_duplicates_aux seen rest
    else entity :: remove_duplicates_aux (entKey entity :: seen) rest

/-- `SmartEntityExtractor._remove_duplicates`. -/
def remove_duplicates (entities : List Ent) : List Ent :=
  remove_duplicates_aux [] entities

/-- Reference form of first-occurrence deduplication: keep the head,
drop every later entry sharing its key, recurse. -/
def keepFirst : List Ent → List Ent
  | [] => []
  | e :: rest =>
      e :: keepFirst (rest.filter fun x => decide (entKey x ≠ entKey e))
termination_by l => l.length
decreasing_by
  simp only [List.length_cons]
  exact Nat.lt_succ_of_le (List.length_filter_le _ _)

/-- Stable insertion into a start-sorted list (the element goes before
the first entry with a greater-or-equal start). -/
def insertByStart (x : Ent) : List Ent → List Ent
  | [] => [x]
  | y :: ys => if x.start ≤ y.start then x :: y :: ys else y :: insertByStart x ys

/-- Stable sort by the `start` field (`entities.sort(key=lambda x:
x['start'])`). -/
def sortByStart : List Ent → List Ent
  | [] => []
  | x :: xs => insertByStart x (sortByStart xs)

/-- `SmartEntityExtractor.extract_entities`, with the spaCy span
producer abstracted as `nlp`. -/
def extract_entities (nlp : Str → List Ent) (text : Str) : List Ent :=
  if text.isEmpty || (pyStrip text).isEmpty then []
  else
    sortByStart (remove_duplicates (apply_smart_corrections text (nlp text)))

/-- Python slice `text[a:b]` (for comparing a span's carried text with
the text under its offsets). -/
def sliceCs (s : Str) (a b : Nat) : Str := (s.drop a).take (b - a)

theorem insertByStart_perm (x : Ent) (l : List Ent) :
    (insertByStart x l).Perm (x :: l) := by
  induction l with
  | nil => exact List.Perm.refl _
  | cons y ys ih =>
    simp only [insertByStart]
    split
    · exact List.Perm.refl _
    · exact (List.Perm.cons y ih).trans (List.Perm.swap x y ys)

theorem sortByStart_perm (l : List Ent) : (sortByStart l).Perm l := by
  induction l with
  | nil => exact List.Perm.refl _
  | cons x xs ih =>
    exact (insertByStart_perm x (sortByStart xs)).trans (List.Perm.cons x ih)

theorem insertByStart_pairwise (x : Ent) (l : List Ent)
    (h : List.Pairwise (fun a b => a.start ≤ b.start) l) :
    List.Pairwise (fun a b => a.start ≤ b.start) (insertByStart x l) := by
  induction l with
  | nil => simp [insertByStart]
  | cons y ys ih =>
    simp only [insertByStart]
    split
    · rename_i hxy
      refine List.Pairwise.cons ?_ h
      intro z hz
      rcases List.mem_cons.mp hz with rfl | hz
      · exact hxy
      · exact hxy.trans (List.rel_of_pairwise_cons h hz)
    · rename_i hxy
      refine List.Pairwise.cons ?_ (ih (h.of_cons))
      intro z hz
      have hz' := (insertByStart_perm x ys).mem_iff.mp hz
      rcases List.mem_cons.mp hz' with rfl | hz'
      · omega
      · exact List.rel_of_pairwise_cons h hz'

theorem sortByStart_sorted (l : List Ent) :
    List.Pairwise (fun a b => a.start ≤ b.start) (sortByStart l) := by
  induction l with
  | nil => simp [sortByStart]
  | cons x xs ih => exact insertByStart_pairwise x (sortByStart xs) ih

theorem keepFirst_subset (l : List Ent) : keepFirst l ⊆ l := by
  induction l using keepFirst.induct with
  | case1 => simp [keepFirst]
  | case2 e rest ih =>
    rw [keepFirst]
    intro x hx
    rcases List.mem_cons.mp hx with rfl | hx
    · exact List.mem_cons_self _ _
    · exact List.mem_cons_of_mem _ (List.mem_of_mem_filter (ih hx))

theorem keepFirst_pairwise (l : List Ent) :
    List.Pairwise (fun a b => entKey a ≠ entKey b) (keepFirst l) := by
  induction l using keepFirst.induct with
  | case1 => simp [keepFirst]
  | case2 e rest ih =>
    rw [keepFirst]
    refine List.Pairwise.cons ?_ ih
    intro b hb
    have hb' := keepFirst_subset _ hb
    have hne := List.of_mem_filter hb'
    exact Ne.symm (by simpa using hne)

theorem remove_duplicates_aux_eq (l : List Ent) : ∀ seen : List Str,
    remove_duplicates_aux seen l =
      keepFirst (l.filter fun x => decide (entKey x ∉ seen)) := by
  induction l with
  | nil => intro seen; simp [remove_duplicates_aux, keepFirst]
  | cons e rest ih =>
    intro seen
    by_cases h : entKey e ∈ seen
    · rw [remove_duplicates_aux, if_pos h, List.filter_cons_of_neg (by simpa using h)]
      exact ih seen
    · rw [remove_duplicates_aux, if_neg h, List.filter_cons_of_pos (by simpa using h),
        keepFirst, ih (entKey e :: seen), List.filter_filter]
      have hpred : (rest.filter fun x => decide (entKey x ∉ entKey e :: seen)) =
          rest.filter fun a => decide (entKey a ≠ entKey e) && decide (entKey a ∉ seen) := by
        apply List.filter_congr
        intro x _
        by_cases hx : entKey x = entKey e <;> by_cases hs : entKey x ∈ seen <;>
          simp [hx, hs]
      rw [hpred]

theorem remove_duplicates_eq_keepFirst (l : List Ent) :
    remove_duplicates l = keepFirst l := by
  rw [remove_duplicates, remove_duplicates_aux_eq l []]
  congr 1
  exact List.filter_eq_self.mpr (fun a _ => by simp)

theorem brook_start (e : Ent) : (brooklyn_fix_one e).start = e.start := by
  unfold brooklyn_fix_one; split <;> rfl

theorem brook_stop (e : Ent) : (brooklyn_fix_one e).stop = e.stop := by
  unfold brooklyn_fix_one; split <;> rfl

theorem hall_start (e : Ent) : (hall_fix_one e).start = e.start := by
  unfold hall_fix_one; split <;> rfl

theorem hall_stop (e : Ent) : (hall_fix_one e).stop = e.stop := by
  unfold hall_fix_one; split <;> rfl

theorem overlaps_false {s e : Nat} {ent : Ent}
    (h : overlapsCaseyRegion s e ent = false) :
    ¬(s ≤ ent.start ∧ ent.start < e) ∧ ¬(s < ent.stop ∧ ent.stop ≤ e) := by
  simp only [overlapsCaseyRegion, Bool.or_eq_false_iff, Bool.and_eq_false_iff,
    decide_eq_false_iff_not] at h
  omega

/-! ## The transient `networkx.DiGraph` of `_add_in_degree_info`

`networkx.DiGraph` is a simple digraph: `add_edge` on an existing
subject/object pair is a no-op (no parallel edges), `add_edge` inserts
missing endpoints as nodes, and `in_degree` of an absent node raises
(modelled as `none`). -/

/-- A directed graph as a node list and an edge list, both
duplicate-free by construction. -/
structure DG where
  nodes : List Str
  edges : List (Str × Str)
deriving DecidableEq, Repr

/-- `networkx` `add_node`: a no-op when the node exists. -/
def add_node (g : DG) (n : Str) : DG :=
  if n ∈ g.nodes then g else { g with nodes := g.nodes ++ [n] }

/-- `networkx` `DiGraph.add_edge`: inserts missing endpoints, then adds
the edge unless it is already present. -/
def add_edge (g : DG) (u v : Str) : DG :=
  let g1 := add_node (add_node g u) v
  if (u, v) ∈ g1.edges then g1 else { g1 with edges := g1.edges ++ [(u, v)] }

/-- `networkx` `DiGraph.in_degree(n)`: the number of in-edges of `n`,
or a raise (`none`) when `n` is not a node of the graph. -/
def in_degree (g : DG) (n : Str) : Option Nat :=
  if n ∈ g.nodes then
    some ((g.edges.filter (fun e => decide (e.2 = n))).length)
  else none

/-- The graph construction of `_add_in_degree_info`: all entities as
nodes, then one `add_edge` per relationship (subject → object). -/
def build_degree_graph (relationships : List Triplet) (entities : List Resolved) : DG :=
  let g := entities.foldl (fun g e => add_node g e.qid) ⟨[], []⟩
  relationships.foldl (fun g r => add_edge g r.subject_qid r.object_qid) g

/-- The loop body of `_add_in_degree_info`'s annotation pass:
`rel_copy = rel.copy()` followed by the two in-degree insertions
(`none` when an `in_degree` lookup raises).  The second component is
the state of the input record after the iteration: the body only
mutates the copy, so it is returned unchanged. -/
def annotate_one (g : DG) (rel : Triplet) : Option TripletD × Triplet :=
  (match in_degree g rel.subject_qid, in_degree g rel.object_qid with
   | some sd, some od => some ⟨rel, sd, od⟩
   | _, _ => none, rel)

/-- The annotation loop of `_add_in_degree_info`, threading the state
of the input records. -/
def annotate_rels (g : DG) : List Triplet → Option (List TripletD) × List Triplet
  | [] => (some [], [])
  | r :: rest =>
    let p := annotate_one g r
    let q := annotate_rels g rest
    ((match p.1, q.1 with
      | some td, some l => some (td :: l)
      | _, _ => none), p.2 :: q.2)

/-- `EnhancedRelationshipExtractor._add_in_degree_info`. -/
def add_in_degree_info (relationships : List Triplet) (entities : List Resolved) :
    Option (List TripletD) :=
  (annotate_rels (build_degree_graph relationships entities) relationships).1

/-- The number of distinct subject identifiers among the relationships
whose object identifier is `q` — what the deduplicated edge set makes
of `q`'s in-degree. -/
def specInCount (relationships : List Triplet) (q : Str) : Nat :=
  (((relationships.filter (fun r => decide (r.object_qid = q))).map
    (fun r => r.subject_qid)).dedup).length

theorem nodes_add_node (g : DG) (n m : Str) :
    m ∈ (add_node g n).nodes ↔ m ∈ g.nodes ∨ m = n := by
  rw [add_node]
  split
  · rename_i h
    constructor
    · exact Or.inl
    · rintro (hm | rfl)
      · exact hm
      · exact h
  · simp [or_comm]

theorem edges_add_node (g : DG) (n : Str) : (add_node g n).edges = g.edges := by
  rw [add_node]; split <;> rfl

theorem nodes_add_edge (g : DG) (u v m : Str) :
    m ∈ (add_edge g u v).nodes ↔ m ∈ g.nodes ∨ m = u ∨ m = v := by
  rw [add_edge]
  split <;> simp [nodes_add_node, or_assoc]

theorem mem_edges_add_edge (g : DG) (u v : Str) (e : Str × Str) :
    e ∈ (add_edge g u v).edges ↔ e ∈ g.edges ∨ e = (u, v) := by
  rw [add_edge]
  split
  · rename_i h
    rw [edges_add_node, edges_add_node] at h ⊢
    constructor
    · exact Or.inl
    · rintro (hm | rfl)
      · exact hm
      · exact h
  · simp [edges_add_node, or_comm]

theorem nodup_edges_add_edge (g : DG) (u v : Str) (h : g.edges.Nodup) :
    (add_edge g u v).edges.Nodup := by
  rw [add_edge]
  split
  · simpa [edges_add_node] using h
  · rename_i hne
    rw [edges_add_node, edges_add_node] at hne ⊢
    simpa [List.nodup_append] using ⟨h, hne⟩

theorem foldl_add_edge_edges_mem (rels : List Triplet) :
    ∀ (g : DG) (e : Str × Str),
      e ∈ (rels.foldl (fun g r => add_edge g r.subject_qid r.object_qid) g).edges ↔
      e ∈ g.edges ∨ e ∈ rels.map (fun r => (r.subject_qid, r.object_qid)) := by
  induction rels with
  | nil => simp
  | cons r rest ih =>
    intro g e
    rw [List.foldl_cons, ih, mem_edges_add_edge]
    simp [or_assoc, or_comm, or_left_comm]

theorem foldl_add_edge_edges_nodup (rels : List Triplet) :
    ∀ (g : DG), g.edges.Nodup →
      (rels.foldl (fun g r => add_edge g r.subject_qid r.object_qid) g).edges.Nodup := by
  induction rels with
  | nil => intro g h; exact h
  | cons r rest ih =>
    intro g h
    exact ih _ (nodup_edges_add_edge g _ _ h)

theorem foldl_add_edge_nodes_mem (rels : List Triplet) :
    ∀ (g : DG) (n : Str),
      n ∈ (rels.foldl (fun g r => add_edge g r.subject_qid r.object_qid) g).nodes ↔
      n ∈ g.nodes ∨ ∃ r ∈ rels, r.subject_qid = n ∨ r.object_qid = n := by
  induction rels with
  | nil => simp
  | cons r rest ih =>
    intro g n
    rw [List.foldl_cons, ih, nodes_add_edge]
    simp only [List.mem_cons]
    constructor
    · rintro ((hg | rfl | rfl) | ⟨r', hr', hr''⟩)
      · exact Or.inl hg
      · exact Or.inr ⟨r, Or.inl rfl, Or.inl rfl⟩
      · exact Or.inr ⟨r, Or.inl rfl, Or.inr rfl⟩
      · exact Or.inr ⟨r', Or.inr hr', hr''⟩
    · rintro (hg | ⟨r', rfl | hr', hr''⟩)
      · exact Or.inl (Or.inl hg)
      · rcases hr'' with rfl | rfl
        · exact Or.inl (Or.inr (Or.inl rfl))
        · exact Or.inl (Or.inr (Or.inr rfl))
      · exact Or.inr ⟨r', hr', hr''⟩

theorem foldl_add_node_nodes_mem (entities : List Resolved) :
    ∀ (g : DG) (n : Str),
      n ∈ (entities.foldl (fun g e => add_node g e.qid) g).nodes ↔
      n ∈ g.nodes ∨ ∃ ent ∈ entities, ent.qid = n := by
  induction entities with
  | nil => simp
  | cons e rest ih =>
    intro g n
    rw [List.foldl_cons, ih, nodes_add_node]
    simp only [List.mem_cons]
    constructor
    · rintro ((hg | rfl) | ⟨e', he', rfl⟩)
      · exact Or.inl hg
      · exact Or.inr ⟨e, Or.inl rfl, rfl⟩
      · exact Or.inr ⟨e', Or.inr he', rfl⟩
    · rintro (hg | ⟨e', rfl | he', rfl⟩)
      · exact Or.inl (Or.inl hg)
      · exact Or.inl (Or.inr rfl)
      · exact Or.inr ⟨e', he', rfl⟩

theorem foldl_add_node_edges (entities : List Resolved) :
    ∀ (g : DG),
      (entities.foldl (fun g e => add_node g e.qid) g).edges = g.edges := by
  induction entities with
  | nil => intro g; rfl
  | cons e rest ih =>
    intro g
    rw [List.foldl_cons, ih, edges_add_node]

theorem build_graph_edges_nodup (rels : List Triplet) (entities : List Resolved) :
    (build_degree_graph rels entities).edges.Nodup := by
  apply foldl_add_edge_edges_nodup
  rw [foldl_add_node_edges]
  exact List.nodup_nil

theorem build_graph_edges_mem (rels : List Triplet) (entities : List Resolved)
    (e : Str × Str) :
    e ∈ (build_degree_graph rels entities).edges ↔
      e ∈ rels.map (fun r => (r.subject_qid, r.object_qid)) := by
  rw [build_degree_graph, foldl_add_edge_edges_mem, foldl_add_node_edges]
  simp

theorem build_graph_nodes_mem (rels : List Triplet) (entities : List Resolved)
    (n : Str) :
    n ∈ (build_degree_graph rels entities).nodes ↔
      (∃ ent ∈ entities, ent.qid = n) ∨
      (∃ r ∈ rels, r.subject_qid = n ∨ r.object_qid = n) := by
  rw [build_degree_graph, foldl_add_edge_nodes_mem, foldl_add_node_nodes_mem]
  simp [or_comm]

theorem filtered_edges_length (rels : List Triplet) (entities : List Resolved)
    (q : Str) :
    ((build_degree_graph rels entities).edges.filter
      (fun e => decide (e.2 = q))).length = specInCount rels q := by
  set A := (build_degree_graph rels entities).edges.filter (fun e => decide (e.2 = q))
    with hA
  set B := ((rels.filter (fun r => decide (r.object_qid = q))).map
    (fun r => r.subject_qid)).dedup with hB
  have hAnodup : A.Nodup := (build_graph_edges_nodup rels entities).filter _
  have hAmem : ∀ p : Str × Str, p ∈ A ↔
      (∃ r ∈ rels, r.subject_qid = p.1 ∧ r.object_qid = p.2) ∧ p.2 = q := by
    intro p
    rw [hA, List.mem_filter, build_graph_edges_mem]
    simp [Prod.ext_iff, eq_comm, and_comm, and_assoc, and_left_comm]
  have hmapnodup : (A.map Prod.fst).Nodup := by
    refine hAnodup.map_on ?_
    intro x hx y hy hxy
    have hx2 := ((hAmem x).mp hx).2
    have hy2 := ((hAmem y).mp hy).2
    exact Prod.ext_iff.mpr ⟨hxy, hx2.trans hy2.symm⟩
  have hBnodup : B.Nodup := List.nodup_dedup _
  have hperm : (A.map Prod.fst).Perm B := by
    rw [List.perm_ext_iff_of_nodup hmapnodup hBnodup]
    intro u
    rw [hB, List.mem_dedup]
    constructor
    · intro hu
      obtain ⟨p, hp, rfl⟩ := List.mem_map.mp hu
      obtain ⟨⟨r, hr, hr1, hr2⟩, hq⟩ := (hAmem p).mp hp
      exact List.mem_map.mpr ⟨r, List.mem_filter.mpr ⟨hr, by simp [hr2, hq]⟩, hr1⟩
    · intro hu
      obtain ⟨r, hr, rfl⟩ := List.mem_map.mp hu
      obtain ⟨hrm, hrq⟩ := List.mem_filter.mp hr
      have hrq' : r.object_qid = q := by simpa using hrq
      refine List.mem_map.mpr ⟨(r.subject_qid, r.object_qid), ?_, rfl⟩
      exact (hAmem _).mpr ⟨⟨r, hrm, rfl, rfl⟩, hrq'⟩
  calc A.length = (A.map Prod.fst).length := (List.length_map _ _).symm
    _ = B.length := hperm.length_eq

theorem in_degree_build (rels : List Triplet) (entities : List Resolved) (q : Str)
    (hq : q ∈ (build_degree_graph rels entities).nodes) :
    in_degree (build_degree_graph rels entities) q = some (specInCount rels q) := by
  rw [in_degree, if_pos hq, filtered_edges_length]

theorem annotate_rels_state (g : DG) (rels : List Triplet) :
    (annotate_rels g rels).2 = rels := by
  induction rels with
  | nil => rfl
  | cons r rest ih => simp [annotate_rels, annotate_one, ih]

theorem annotate_one_base (g : DG) (r : Triplet) (td : TripletD)
    (h : (annotate_one g r).1 = some td) : td.base = r := by
  rw [annotate_one] at h
  simp only at h
  split at h
  · injection h with h'
    rw [← h']
  · cases h

theorem annotate_rels_map (g : DG) (rels : List Triplet) (f : Triplet → TripletD)
    (h : ∀ r ∈ rels, (annotate_one g r).1 = some (f r)) :
    (annotate_rels g rels).1 = some (rels.map f) := by
  induction rels with
  | nil => rfl
  | cons r rest ih =>
    have h1 := h r (List.mem_cons_self _ _)
    have h2 := ih (fun r' hr' => h r' (List.mem_cons_of_mem _ hr'))
    simp [annotate_rels, h1, h2]

theorem annotate_rels_bases (g : DG) (rels : List Triplet) :
    ∀ out, (annotate_rels g rels).1 = some out →
      out.map (fun td => td.base) = rels := by
  induction rels with
  | nil => intro out h; injection h with h'; rw [← h']; rfl
  | cons r rest ih =>
    intro out h
    rw [annotate_rels] at h
    simp only at h
    split at h
    · rename_i td l h1 h2
      injection h with h'
      rw [← h', List.map_cons, annotate_one_base g r td h1, ih l h2]
    · cases h

/-! ## `WikidataClient.process_entities` (interface level)

The knowledge base's `searchEntity` and `getLabel` capabilities are
function parameters.  `process_entities` copies each entity dictionary
before adding the `qid`/`wikidata_label` keys; the embedding threads
the state of every input record through the loop, so the post-loop
state of the inputs is observable. -/

/-- One iteration of the `process_entities` loop: search, label lookup,
`entity.copy()` plus the two key insertions on success.  The second
component is the state of the input record after the iteration. -/
def resolve_step (search label : Str → Option Str) (entity : Ent) :
    Option Resolved × Ent :=
  match search entity.text with
  | none => (none, entity)
  | some qid =>
    match label qid with
    | none => (none, entity)
    | some lbl => (some ⟨entity, qid, lbl⟩, entity)

/-- `WikidataClient.process_entities`, threading the state of the input
records (second component). -/
def process_entities_tr (search label : Str → Option Str) :
    List Ent → List Resolved × List Ent
  | [] => ([], [])
  | entity :: rest =>
    let p := resolve_step search label entity
    let q := process_entities_tr search label rest
    (p.1.toList ++ q.1, p.2 :: q.2)

/-- The value returned by `WikidataClient.process_entities`. -/
def process_entities (search label : Str → Option Str) (entities : List Ent) :
    List Resolved :=
  (process_entities_tr search label entities).1

/-! ## `EnhancedRelationshipExtractor.extract_relationships`

The relationship-discovery capability (`get_relationships`, a network
call) is the function parameter `getRels`. -/

/-- The relationship dictionary literal built for one direction of a
pair (subject and object in the roles of that direction). -/
def build_triplet (sub obj : Resolved) (rel : Fact) : Triplet :=
  ⟨sub.wikidata_label, sub.qid, rel.predicate, rel.predicate_pid,
    obj.wikidata_label, obj.qid⟩

/-- One direction of the pair body: `if rels: shortest =
get_shortest_relationship(rels); if shortest: append(...)`. -/
def direction_triplets (getRels : Str → Str → List Fact) (sub obj : Resolved) :
    List Triplet :=
  let rels := getRels sub.qid obj.qid
  if rels.isEmpty then []
  else
    match get_shortest_relationship rels with
    | some shortest => [build_triplet sub obj shortest]
    | none => []

/-- The body of the inner pair loop: forward direction, then backward
direction. -/
def pair_triplets (getRels : Str → Str → List Fact) (sub obj : Resolved) :
    List Triplet :=
  direction_triplets getRels sub obj ++ direction_triplets getRels obj sub

/-- The nested pair loops of `extract_relationships` (step 3): for each
`i`, each `j > i` in order. -/
def find_relationships (getRels : Str → Str → List Fact) :
    List Resolved → List Triplet
  | [] => []
  | x :: xs => xs.flatMap (pair_triplets getRels x) ++ find_relationships getRels xs

/-- `EnhancedRelationshipExtractor.extract_relationships`: entity
extraction, resolution, the two early returns, pair enumeration, and
in-degree annotation. -/
def extract_relationships (nlp : Str → List Ent) (search label : Str → Option Str)
    (getRels : Str → Str → List Fact) (text : Str) : Option (List TripletD) :=
  let entities := extract_entities nlp text
  if entities.length < 2 then some []
  else
    let processed := process_entities search label entities
    if processed.length < 2 then some []
    else add_in_degree_info (find_relationships getRels processed) processed

/-- The unordered pairs `{i, j}`, `i < j`, of a sequence, in
enumeration order. -/
def ordered_pairs : List Resolved → List (Resolved × Resolved)
  | [] => []
  | x :: xs => xs.map (fun y => (x, y)) ++ ordered_pairs xs

/-- The at-most-one triplet contributed by one direction of a pair:
`selectBest` of that direction's discovery result, assembled with that
direction's subject/object roles. -/
def direction_triplet (getRels : Str → Str → List Fact) (a b : Resolved) :
    Option Triplet :=
  (get_shortest_relationship (getRels a.qid b.qid)).map (build_triplet a b)

theorem direction_triplets_eq (getRels : Str → Str → List Fact) (a b : Resolved) :
    direction_triplets getRels a b = (direction_triplet getRels a b).toList := by
  rw [direction_triplets, direction_triplet]
  cases h : getRels a.qid b.qid with
  | nil => rfl
  | cons x xs => rfl

/-! ## Concrete collaborator instances

Small fixed collaborators used to evaluate the pipeline at concrete
inputs: three spans of which two resolve to the same knowledge-base
identifier, and one directed fact between the two identifiers. -/

/-- An NLP collaborator returning three one-character spans. -/
def exNlp : Str → List Ent := fun _ =>
  [⟨str "a", str "X", 0, 1⟩, ⟨str "b", str "X", 2, 3⟩, ⟨str "c", str "X", 4, 5⟩]

/-- An entity-search collaborator sending both `b` and `c` to `Q2`. -/
def exSearch : Str → Option Str := fun t =>
  if t = str "a" then some (str "Q1")
  else if t = str "b" then some (str "Q2")
  else if t = str "c" then some (str "Q2")
  else none

/-- A label-lookup collaborator for `Q1` and `Q2`. -/
def exLabel : Str → Option Str := fun q =>
  if q = str "Q1" then some (str "A")
  else if q = str "Q2" then some (str "B")
  else none

/-- A relationship-discovery collaborator with one directed fact
`Q1 → Q2`. -/
def exRels : Str → Str → List Fact := fun s o =>
  if s = str "Q1" ∧ o = str "Q2" then [⟨str "p", str "P1"⟩] else []

/-- The one triplet shape the above collaborators produce (twice). -/
def exT : Triplet :=
  ⟨str "A", str "Q1", str "p", str "P1", str "B", str "Q2"⟩

/-! ## The observable effects of a run

`extract_relationships` and `process_entities` print progress lines and
sleep between knowledge-base lookups.  The console/sleep trace is the
only ambient state a run touches; threading it makes the run's effect
on later runs explicit.  Message text is abbreviated to its dynamic
fields (the exact Python formatting carries no information used
anywhere). -/

/-- The effect trace of one process: printed lines and sleep markers,
in order. -/
structure RunState where
  log : List Str
deriving DecidableEq, Repr

/-- Append one printed line (or sleep marker) to the trace. -/
def emit (st : RunState) (line : Str) : RunState := ⟨st.log ++ [line]⟩

/-- `process_entities` with its per-entity progress prints and the
`time.sleep(0.1)` throttle marker. -/
def process_entities_run (search label : Str → Option Str) :
    List Ent → RunState → List Resolved × RunState
  | [], st => ([], st)
  | entity :: rest, st =>
    let st1 := emit st (str "Processing entity: " ++ entity.text)
    let p := resolve_step search label entity
    let st2 := match p.1 with
      | some r => emit st1 (str "  Found: " ++ r.wikidata_label)
      | none => emit st1 (str "  miss")
    let st3 := emit st2 (str "sleep 0.1")
    let q := process_entities_run search label rest st3
    (p.1.toList ++ q.1, q.2)

/-- The inner pair loop with its `Checking relationships` print. -/
def pair_loop_run (getRels : Str → Str → List Fact) (x : Resolved) :
    List Resolved → RunState → List Triplet × RunState
  | [], st => ([], st)
  | y :: ys, st =>
    let st1 := emit st (str "Checking " ++ x.span.text ++ str " and " ++ y.span.text)
    let t := pair_triplets getRels x y
    let rest := pair_loop_run getRels x ys st1
    (t ++ rest.1, rest.2)

/-- The outer pair loop of step 3. -/
def find_relationships_run (getRels : Str → Str → List Fact) :
    List Resolved → RunState → List Triplet × RunState
  | [], st => ([], st)
  | x :: xs, st =>
    let inner := pair_loop_run getRels x xs st
    let rest := find_relationships_run getRels xs inner.2
    (inner.1 ++ rest.1, rest.2)

/-- `extract_relationships` with its effect trace threaded. -/
def extract_relationships_run (nlp : Str → List Ent)
    (search label : Str → Option Str) (getRels : Str → Str → List Fact)
    (text : Str) (st : RunState) : Option (List TripletD) × RunState :=
  let entities := extract_entities nlp text
  if entities.length < 2 then
    (some [], emit st (str "Need at least 2 entities to find relationships"))
  else
    let st1 := emit st (str "Found entities")
    let pe := process_entities_run search label entities st1
    if pe.1.length < 2 then
      (some [], emit pe.2 (str "Need at least 2 entities with Wikidata information"))
    else
      let st2 := emit pe.2 (str "Found Wikidata info")
      let fr := find_relationships_run getRels pe.1 st2
      (add_in_degree_info fr.1 pe.1, fr.2)

theorem process_entities_run_fst (search label : Str → Option Str) :
    ∀ (entities : List Ent) (st : RunState),
      (process_entities_run search label entities st).1 =
        process_entities search label entities := by
  intro entities
  induction entities with
  | nil => intro st; rfl
  | cons e rest ih =>
    intro st
    rw [process_entities_run, process_entities, process_entities_tr]
    simp only [ih]
    rfl

theorem pair_loop_run_fst (getRels : Str → Str → List Fact) (x : Resolved) :
    ∀ (ys : List Resolved) (st : RunState),
      (pair_loop_run getRels x ys st).1 = ys.flatMap (pair_triplets getRels x) := by
  intro ys
  induction ys with
  | nil => intro st; rfl
  | cons y ys ih =>
    intro st
    rw [pair_loop_run, List.flatMap_cons]
    simp only [ih]

theorem find_relationships_run_fst (getRels : Str → Str → List Fact) :
    ∀ (processed : List Resolved) (st : RunState),
      (find_relationships_run getRels processed st).1 =
        find_relationships getRels processed := by
  intro processed
  induction processed with
  | nil => intro st; rfl
  | cons x xs ih =>
    intro st
    rw [find_relationships_run, find_relationships]
    simp only [ih, pair_loop_run_fst]

/-! ## Transport level (`wikidata_client.py` raw payload handling)

One HTTP round trip (`session.get` + `raise_for_status()` +
`response.json()`) either fails with a `requests.RequestException`
(timeout, non-success status, undecodable body) — modelled as
`Except.error (te : TErr)` — or yields a decoded JSON value.  The
client's `try`/`except requests.RequestException` catches exactly the
former.  Python exceptions arising from the *structure* of a decoded
payload (`KeyError`, `TypeError`, `AttributeError`) are not
`RequestException`s and escape the handler; they are modelled as the
`Except.error ()` of the `Except Unit` result type. -/

/-- A decoded JSON value. -/
inductive J where
  | obj : List (Str × J) → J
  | arr : List J → J
  | jstr : Str → J
  | jnum : Int → J
  | jbool : Bool → J
  | jnull : J

/-- A transport-level failure covered by
`except requests.RequestException`. -/
inductive TErr where
  | timeout
  | httpStatus : Nat → TErr
  | jsonDecode
deriving DecidableEq, Repr

/-- Python truthiness of a decoded JSON value. -/
def truthy : J → Bool
  | .obj d => !d.isEmpty
  | .arr l => !l.isEmpty
  | .jstr s => !s.isEmpty
  | .jnum n => n != 0
  | .jbool b => b
  | .jnull => false

/-- Python dict lookup on a JSON object's key/value pairs. -/
def lk : List (Str × J) → Str → Option J
  | [], _ => none
  | (k, v) :: rest, key => if k = key then some v else lk rest key

/-- Python `key in value` for a string key: key membership on a dict,
element equality on a list (a string equals only that string), substring
containment on a string, `TypeError` otherwise. -/
def inOp (key : Str) (v : J) : Except Unit Bool :=
  match v with
  | .obj d => .ok (lk d key).isSome
  | .arr l => .ok (l.any fun j => match j with
      | .jstr s => decide (s = key)
      | _ => false)
  | .jstr s => .ok (containsSub s key)
  | _ => .error ()

/-- Python `value[key]` for a string key: dict lookup (`KeyError` when
missing), `TypeError` on anything else. -/
def getItem (v : J) (key : Str) : Except Unit J :=
  match v with
  | .obj d =>
    match lk d key with
    | some x => .ok x
    | none => .error ()
  | _ => .error ()

/-- Python `value[i]` for an integer index (`IndexError` out of range,
`TypeError` on non-sequences). -/
def indexItem (v : J) (i : Nat) : Except Unit J :=
  match v with
  | .arr l =>
    match l[i]? with
    | some x => .ok x
    | none => .error ()
  | .jstr s =>
    match s[i]? with
    | some c => .ok (.jstr [c])
    | none => .error ()
  | _ => .error ()

/-- Python `value.get(key)` (`AttributeError` on non-dicts). -/
def dotGet (v : J) (key : Str) : Except Unit (Option J) :=
  match v with
  | .obj d => .ok (lk d key)
  | _ => .error ()

/-- Python `value.get(key, default)`. -/
def dotGetD (v : J) (key : Str) (dflt : J) : Except Unit J :=
  match v with
  | .obj d => .ok ((lk d key).getD dflt)
  | _ => .error ()

/-- Python `value.items()` (`AttributeError` on non-dicts). -/
def pyItems (v : J) : Except Unit (List (Str × J)) :=
  match v with
  | .obj d => .ok d
  | _ => .error ()

/-- Python `for x in value`: list elements, string characters, dict
keys; `TypeError` otherwise. -/
def pyIter (v : J) : Except Unit (List J) :=
  match v with
  | .arr l => .ok l
  | .jstr s => .ok (s.map fun c => .jstr [c])
  | .obj d => .ok (d.map fun p => .jstr p.1)
  | _ => .error ()

/-- `WikidataClient.search_entity` at transport level: a transport
failure is caught and becomes `None`; a decoded payload is taken apart
with the unguarded `data['search'][0]['id']` accesses of the source. -/
def search_entity_tr (resp : Except TErr J) : Except Unit (Option J) :=
  match resp with
  | .error _ => .ok none
  | .ok data =>
    match inOp (str "search") data with
    | .error e => .error e
    | .ok b =>
      if b then
        match getItem data (str "search") with
        | .error e => .error e
        | .ok s =>
          if truthy s then
            match indexItem s 0 with
            | .error e => .error e
            | .ok hit =>
              match getItem hit (str "id") with
              | .error e => .error e
              | .ok qid => .ok (some qid)
          else .ok none
      else .ok none

/-- `WikidataClient.get_entity_label` at transport level. -/
def get_entity_label_tr (resp : Except TErr J) (qid : Str) : Except Unit (Option J) :=
  match resp with
  | .error _ => .ok none
  | .ok data =>
    match inOp (str "entities") data with
    | .error e => .error e
    | .ok b1 =>
      if b1 then
        match getItem data (str "entities") with
        | .error e => .error e
        | .ok ents =>
          match inOp qid ents with
          | .error e => .error e
          | .ok b2 =>
            if b2 then
              match getItem ents qid with
              | .error e => .error e
              | .ok entity =>
                match inOp (str "labels") entity with
                | .error e => .error e
                | .ok b3 =>
                  if b3 then
                    match getItem entity (str "labels") with
                    | .error e => .error e
                    | .ok labels =>
                      match inOp (str "en") labels with
                      | .error e => .error e
                      | .ok b4 =>
                        if b4 then
                          match getItem labels (str "en") with
                          | .error e => .error e
                          | .ok en =>
                            match getItem en (str "value") with
                            | .error e => .error e
                            | .ok v => .ok (some v)
                        else .ok none
                  else .ok none
            else .ok none
      else .ok none

/-- `WikidataClient.get_property_label`: its body is line for line that
of `get_entity_label` with the property identifier in place of the
entity identifier. -/
def get_property_label_tr (resp : Except TErr J) (pid : Str) : Except Unit (Option J) :=
  get_entity_label_tr resp pid

/-- The body of `get_relationships`' inner claim loop for one claim:
mainsnak/datavalue presence checks, the `wikibase-entityid` type test,
the unguarded `datavalue['value']['id']` access, target comparison,
property-label resolution and truthiness test. -/
def process_claim (getPropLabel : Str → Except Unit (Option J)) (object_qid : Str)
    (pid : Str) (claim : J) : Except Unit (List (J × Str)) :=
  match inOp (str "mainsnak") claim with
  | .error e => .error e
  | .ok b1 =>
    if b1 then
      match getItem claim (str "mainsnak") with
      | .error e => .error e
      | .ok ms =>
        match inOp (str "datavalue") ms with
        | .error e => .error e
        | .ok b2 =>
          if b2 then
            match getItem ms (str "datavalue") with
            | .error e => .error e
            | .ok datavalue =>
              match dotGet datavalue (str "type") with
              | .error e => .error e
              | .ok t =>
                match t with
                | some (.jstr ty) =>
                  if ty = str "wikibase-entityid" then
                    match getItem datavalue (str "value") with
                    | .error e => .error e
                    | .ok value =>
                      match getItem value (str "id") with
                      | .error e => .error e
                      | .ok target =>
                        match target with
                        | .jstr tq =>
                          if tq = object_qid then
                            match getPropLabel pid with
                            | .error e => .error e
                            | .ok (some lbl) =>
                              if truthy lbl then .ok [(lbl, pid)] else .ok []
                            | .ok none => .ok []
                          else .ok []
                        | _ => .ok []
                  else .ok []
                | _ => .ok []
          else .ok []
    else .ok []

/-- The inner `for claim in claims` loop. -/
def claims_loop (getPropLabel : Str → Except Unit (Option J)) (object_qid pid : Str) :
    List J → Except Unit (List (J × Str))
  | [] => .ok []
  | claim :: rest =>
    match process_claim getPropLabel object_qid pid claim with
    | .error e => .error e
    | .ok f =>
      match claims_loop getPropLabel object_qid pid rest with
      | .error e => .error e
      | .ok r => .ok (f ++ r)

/-- The outer `for pid, claims in subject_claims.items()` loop. -/
def pids_loop (getPropLabel : Str → Except Unit (Option J)) (object_qid : Str) :
    List (Str × J) → Except Unit (List (J × Str))
  | [] => .ok []
  | (pid, claimsv) :: rest =>
    match pyIter claimsv with
    | .error e => .error e
    | .ok cl =>
      match claims_loop getPropLabel object_qid pid cl with
      | .error e => .error e
      | .ok f =>
        match pids_loop getPropLabel object_qid rest with
        | .error e => .error e
        | .ok r => .ok (f ++ r)

/-- `WikidataClient.get_relationships` at transport level: a transport
failure of the claims request is caught and becomes the empty list;
`propResp` is the response oracle for the per-property label requests
performed inside the loop. -/
def get_relationships_tr (resp : Except TErr J) (propResp : Str → Except TErr J)
    (subject_qid object_qid : Str) : Except Unit (List (J × Str)) :=
  match resp with
  | .error _ => .ok []
  | .ok data =>
    match inOp (str "entities") data with
    | .error e => .error e
    | .ok b1 =>
      if b1 then
        match getItem data (str "entities") with
        | .error e => .error e
        | .ok ents =>
          match inOp subject_qid ents with
          | .error e => .error e
          | .ok b2 =>
            if b2 then
              match getItem ents subject_qid with
              | .error e => .error e
              | .ok subjEntity =>
                match dotGetD subjEntity (str "claims") (.obj []) with
                | .error e => .error e
                | .ok subject_claims =>
                  match pyItems subject_claims with
                  | .error e => .error e
                  | .ok items =>
                    pids_loop (fun pid => get_property_label_tr (propResp pid) pid)
                      object_qid items
            else .ok []
      else .ok []

/-- The payload shape that lets a claim produce a fact: an entity-typed
datavalue whose target identifier equals the object identifier. -/
def ClaimYields (object_qid : Str) (claim : J) : Prop :=
  ∃ ms datavalue value,
    getItem claim (str "mainsnak") = .ok ms ∧
    getItem ms (str "datavalue") = .ok datavalue ∧
    dotGet datavalue (str "type") = .ok (some (.jstr (str "wikibase-entityid"))) ∧
    getItem datavalue (str "value") = .ok value ∧
    getItem value (str "id") = .ok (.jstr object_qid)

theorem extract_relationships_run_fst (nlp : Str → List Ent)
    (search label : Str → Option Str) (getRels : Str → Str → List Fact)
    (text : Str) (st : RunState) :
    (extract_relationships_run nlp search label getRels text st).1 =
      extract_relationships nlp search label getRels text := by
  rw [extract_relationships_run, extract_relationships]
  by_cases h1 : (extract_entities nlp text).length < 2
  · simp only [if_pos h1]
  · simp only [if_neg h1, process_entities_run_fst, find_relationships_run_fst]
    by_cases h2 :
        (process_entities search label (extract_entities nlp text)).length < 2 <;>
      simp only [if_pos, if_neg, h2, if_true, if_false]

end ERX

/-- C2. `get_shortest_relationship` returns `none` exactly on the empty
list; on a non-empty list it returns a fact whose predicate-label length
is minimal, and among minimal-length facts the first in encounter order
(every earlier fact is strictly longer, every later fact at least as
long). -/
theorem c2_select_best (l : List ERX.Fact) :
    (l = [] → ERX.get_shortest_relationship l = none) ∧
    (l ≠ [] → ∃ f, ERX.get_shortest_relationship l = some f ∧
      (∀ g ∈ l, f.predicate.length ≤ g.predicate.length) ∧
      ERX.IsFirstMin l f) := by
  constructor
  · intro h; subst h; rfl
  · intro h
    match l with
    | [] => exact absurd rfl h
    | x :: xs =>
      refine ⟨ERX.pymin x xs, rfl, ?_, ERX.pymin_firstMin xs x⟩
      obtain ⟨l₁, l₂, hdec, hlt, hle⟩ := ERX.pymin_firstMin xs x
      intro g hg
      rw [hdec] at hg
      rcases List.mem_append.mp hg with hg | hg
      · exact le_of_lt (hlt g hg)
      · rcases List.mem_cons.mp hg with hg | hg
        · subst hg; exact le_rfl
        · exact hle g hg

/-- Witness for C2 at a concrete list: the second fact has the unique
shortest label and is returned. -/
theorem c2_select_best_witness :
    ([⟨ERX.str "pq", ERX.str "P1"⟩, ⟨ERX.str "a", ERX.str "P2"⟩] ≠
      ([] : List ERX.Fact)) ∧
    (∃ f, ERX.get_shortest_relationship
        [⟨ERX.str "pq", ERX.str "P1"⟩, ⟨ERX.str "a", ERX.str "P2"⟩] = some f ∧
      (∀ g ∈ [(⟨ERX.str "pq", ERX.str "P1"⟩ : ERX.Fact), ⟨ERX.str "a", ERX.str "P2"⟩],
        f.predicate.length ≤ g.predicate.length) ∧
      ERX.IsFirstMin [⟨ERX.str "pq", ERX.str "P1"⟩, ⟨ERX.str "a", ERX.str "P2"⟩] f) :=
  ⟨by decide,
    (c2_select_best [⟨ERX.str "pq", ERX.str "P1"⟩, ⟨ERX.str "a", ERX.str "P2"⟩]).2
      (by decide)⟩

/-- C3 counterexample. On the text `x Charles Dillon "Casey" Stengel y`
with one input span covering the whole text, the corrected span's text
is the fixed string `Casey Stengel`, not the full matched text
`Charles Dillon "Casey" Stengel`, and the input span — whose interval
overlaps the matched region `[2,32)` — survives in the output, so not
every overlapping span is collapsed. -/
theorem c3_counterexample :
    ERX.apply_smart_corrections (ERX.str "x Charles Dillon \"Casey\" Stengel y")
        [⟨ERX.str "big", ERX.str "ORG", 0, 34⟩] =
      [⟨ERX.str "Casey Stengel", ERX.str "PERSON", 2, 32⟩,
        ⟨ERX.str "big", ERX.str "ORG", 0, 34⟩] ∧
    ERX.caseySearch (ERX.str "x Charles Dillon \"Casey\" Stengel y") = some (2, 32) ∧
    ERX.str "Casey Stengel" ≠
      ERX.sliceCs (ERX.str "x Charles Dillon \"Casey\" Stengel y") 2 32 ∧
    ((0 : Nat) < 32 ∧ 2 < 34) := by
  decide

/-- C3 (amended). When the Casey-Stengel pattern matches the text at
`[s,e)`, the Span Corrector emits exactly one replacement span covering
the full matched region with the fixed PERSON type and the fixed
surface text `Casey Stengel` (not the full matched text); every other
output span stems from an input span that neither starts nor ends
strictly inside the region (spans strictly containing the region
survive), and in particular no non-empty sub-span of the region
survives. -/
theorem c3_casey_collapse (text : ERX.Str) (entities : List ERX.Ent) (s e : Nat)
    (h : ERX.caseySearch text = some (s, e)) :
    ∃ rest, ERX.apply_smart_corrections text entities =
        ⟨ERX.str "Casey Stengel", ERX.str "PERSON", s, e⟩ :: rest ∧
      (∀ o ∈ rest, ∃ ent ∈ entities, o.start = ent.start ∧ o.stop = ent.stop ∧
        ¬(s ≤ ent.start ∧ ent.start < e) ∧ ¬(s < ent.stop ∧ ent.stop ≤ e)) ∧
      (∀ o ∈ rest, ¬(s ≤ o.start ∧ o.stop ≤ e ∧ o.start < o.stop)) := by
  refine ⟨ERX.fix_baseball_hall_of_fame (ERX.fix_brooklyn_dodgers
      (entities.filter (fun ent => !(ERX.overlapsCaseyRegion s e ent)))), ?_, ?_, ?_⟩
  · rw [ERX.apply_smart_corrections, h]
    rw [ERX.fix_brooklyn_dodgers, List.map_cons, ERX.fix_baseball_hall_of_fame,
      List.map_cons]
    have hnb : ERX.containsSub (ERX.str "Casey Stengel") (ERX.str "Brooklyn Dodgers") =
        false := by decide
    have hnh : ERX.containsSub (ERX.str "Casey Stengel")
        (ERX.str "Baseball Hall of Fame") = false := by decide
    have hb : ERX.brooklyn_fix_one ⟨ERX.str "Casey Stengel", ERX.str "PERSON", s, e⟩ =
        ⟨ERX.str "Casey Stengel", ERX.str "PERSON", s, e⟩ := by
      simp [ERX.brooklyn_fix_one, hnb]
    have hh : ERX.hall_fix_one ⟨ERX.str "Casey Stengel", ERX.str "PERSON", s, e⟩ =
        ⟨ERX.str "Casey Stengel", ERX.str "PERSON", s, e⟩ := by
      simp [ERX.hall_fix_one, hnh]
    rw [hb, hh, ERX.fix_brooklyn_dodgers, ERX.fix_baseball_hall_of_fame]
  · intro o ho
    rw [ERX.fix_baseball_hall_of_fame] at ho
    obtain ⟨o1, ho1, rfl⟩ := List.mem_map.mp ho
    rw [ERX.fix_brooklyn_dodgers] at ho1
    obtain ⟨o0, ho0, rfl⟩ := List.mem_map.mp ho1
    have hm := List.mem_of_mem_filter ho0
    have hov := List.of_mem_filter ho0
    have hovf : ERX.overlapsCaseyRegion s e o0 = false := by
      simpa using hov
    obtain ⟨h1, h2⟩ := ERX.overlaps_false hovf
    exact ⟨o0, hm, by rw [ERX.hall_start, ERX.brook_start],
      by rw [ERX.hall_stop, ERX.brook_stop], h1, h2⟩
  · intro o ho
    rw [ERX.fix_baseball_hall_of_fame] at ho
    obtain ⟨o1, ho1, rfl⟩ := List.mem_map.mp ho
    rw [ERX.fix_brooklyn_dodgers] at ho1
    obtain ⟨o0, ho0, rfl⟩ := List.mem_map.mp ho1
    have hov := List.of_mem_filter ho0
    have hovf : ERX.overlapsCaseyRegion s e o0 = false := by
      simpa using hov
    obtain ⟨h1, h2⟩ := ERX.overlaps_false hovf
    rw [ERX.hall_start, ERX.brook_start, ERX.hall_stop, ERX.brook_stop]
    omega

/-- Witness for C3 (amended) at the text consisting of exactly the
matched pattern and an empty input span list. -/
theorem c3_casey_collapse_witness :
    ERX.caseySearch (ERX.str "Charles Dillon \"Casey\" Stengel") = some (0, 30) ∧
    (∃ rest, ERX.apply_smart_corrections (ERX.str "Charles Dillon \"Casey\" Stengel") [] =
        ⟨ERX.str "Casey Stengel", ERX.str "PERSON", 0, 30⟩ :: rest ∧
      (∀ o ∈ rest, ∃ ent ∈ ([] : List ERX.Ent), o.start = ent.start ∧ o.stop = ent.stop ∧
        ¬(0 ≤ ent.start ∧ ent.start < 30) ∧ ¬(0 < ent.stop ∧ ent.stop ≤ 30)) ∧
      (∀ o ∈ rest, ¬(0 ≤ o.start ∧ o.stop ≤ 30 ∧ o.start < o.stop))) :=
  ⟨by decide, c3_casey_collapse _ [] 0 30 (by decide)⟩

/-- C5 counterexample. Input spans `A = ("Stengel", 23, 30)` and
`B = ("Stengel", 40, 47)` share the normalized key `stengel`; `A` is
the first occurrence in input order, but the Casey-Stengel correction
removes `A` (it starts inside the matched region), so the kept entry
with that key is `B`, not the first occurrence in input order. -/
theorem c5_counterexample :
    ERX.extract_entities
        (fun _ => [⟨ERX.str "Stengel", ERX.str "PERSON", 23, 30⟩,
          ⟨ERX.str "Stengel", ERX.str "PERSON", 40, 47⟩])
        (ERX.str "Charles Dillon \"Casey\" Stengel") =
      [⟨ERX.str "Casey Stengel", ERX.str "PERSON", 0, 30⟩,
        ⟨ERX.str "Stengel", ERX.str "PERSON", 40, 47⟩] ∧
    ERX.entKey ⟨ERX.str "Stengel", ERX.str "PERSON", 23, 30⟩ =
      ERX.entKey ⟨ERX.str "Stengel", ERX.str "PERSON", 40, 47⟩ ∧
    (⟨ERX.str "Stengel", ERX.str "PERSON", 23, 30⟩ : ERX.Ent) ∉
      ERX.extract_entities
        (fun _ => [⟨ERX.str "Stengel", ERX.str "PERSON", 23, 30⟩,
          ⟨ERX.str "Stengel", ERX.str "PERSON", 40, 47⟩])
        (ERX.str "Charles Dillon \"Casey\" Stengel") := by
  decide

/-- C5 (amended). For every input text and span sequence the Span
Corrector's output is sorted ascending by `start` and contains no two
entries with the same normalized (lowercased, trimmed) text key; on a
non-empty text the output is the start-sorted first-occurrence
deduplication of the corrected sequence (pattern-replacement span
first, then surviving spans in input order, after text rewrites) — so
the kept representative of a key is the first occurrence in corrected
order, which can differ from input order when the pattern correction
removed an earlier duplicate. -/
theorem c5_sorted_dedup (nlp : ERX.Str → List ERX.Ent) (text : ERX.Str) :
    List.Pairwise (fun a b => a.start ≤ b.start) (ERX.extract_entities nlp text) ∧
    List.Pairwise (fun a b => ERX.entKey a ≠ ERX.entKey b)
      (ERX.extract_entities nlp text) ∧
    ((text.isEmpty || (ERX.pyStrip text).isEmpty) = false →
      ERX.extract_entities nlp text =
        ERX.sortByStart (ERX.keepFirst (ERX.apply_smart_corrections text (nlp text)))) := by
  rw [ERX.extract_entities]
  by_cases hc : (text.isEmpty || (ERX.pyStrip text).isEmpty) = true
  · rw [if_pos hc]
    refine ⟨List.Pairwise.nil, List.Pairwise.nil, ?_⟩
    intro hfalse
    rw [hc] at hfalse
    cases hfalse
  · rw [if_neg hc, ERX.remove_duplicates_eq_keepFirst]
    refine ⟨ERX.sortByStart_sorted _, ?_, fun _ => rfl⟩
    have hperm := ERX.sortByStart_perm
      (ERX.keepFirst (ERX.apply_smart_corrections text (nlp text)))
    exact (hperm.pairwise_iff (fun hab => Ne.symm hab)).mpr
      (ERX.keepFirst_pairwise _)

/-- Witness for C5 (amended) on a non-empty text with unsorted,
duplicated input spans. -/
theorem c5_sorted_dedup_witness :
    (((ERX.str "ab").isEmpty || (ERX.pyStrip (ERX.str "ab")).isEmpty) = false) ∧
    ERX.extract_entities
        (fun _ => [⟨ERX.str "b", ERX.str "X", 5, 6⟩, ⟨ERX.str "b", ERX.str "X", 1, 2⟩])
        (ERX.str "ab") =
      ERX.sortByStart (ERX.keepFirst (ERX.apply_smart_corrections (ERX.str "ab")
        [⟨ERX.str "b", ERX.str "X", 5, 6⟩, ⟨ERX.str "b", ERX.str "X", 1, 2⟩])) :=
  ⟨by decide,
    (c5_sorted_dedup
      (fun _ => [⟨ERX.str "b", ERX.str "X", 5, 6⟩, ⟨ERX.str "b", ERX.str "X", 1, 2⟩])
      (ERX.str "ab")).2.2 (by decide)⟩

/-- C1 counterexample. A full pipeline run in which two entity spans
(`b` and `c`) resolve to the same identifier `Q2` emits the triplet
`Q1 → Q2` twice; the run contains 2 triplets whose object identifier is
`Q2`, yet the annotated `object_in_degree` is 1, because the
`DiGraph` deduplicates the repeated subject/object pair instead of
keeping parallel edges. -/
theorem c1_counterexample :
    ERX.extract_relationships ERX.exNlp ERX.exSearch ERX.exLabel ERX.exRels
        (ERX.str "abc") =
      some [⟨ERX.exT, 0, 1⟩, ⟨ERX.exT, 0, 1⟩] ∧
    (([(⟨ERX.exT, 0, 1⟩ : ERX.TripletD), ⟨ERX.exT, 0, 1⟩].filter
        (fun td => decide (td.base.object_qid = ERX.str "Q2"))).length = 2) ∧
    (⟨ERX.exT, 0, 1⟩ : ERX.TripletD).object_in_degree ≠ 2 := by
  refine ⟨by decide, by decide, by decide⟩

/-- C1 (amended). `_add_in_degree_info` always succeeds, annotating each
triplet (base fields unchanged, in input order) with
`subject_in_degree`/`object_in_degree` equal to the number of distinct
subject/object identifier pairs among the run's triplets whose object is
the annotated endpoint — repeated subject/object pairs collapse into one
edge and inflate in-degree once, not once per triplet.  Every resolved
entity is a node of the degree graph, so entities with no incoming edge
get in-degree 0 rather than a failed lookup. -/
theorem c1_in_degree (relationships : List ERX.Triplet)
    (entities : List ERX.Resolved) :
    ERX.add_in_degree_info relationships entities =
      some (relationships.map fun r =>
        ⟨r, ERX.specInCount relationships r.subject_qid,
            ERX.specInCount relationships r.object_qid⟩) ∧
    ∀ ent ∈ entities,
      ERX.in_degree (ERX.build_degree_graph relationships entities) ent.qid =
        some (ERX.specInCount relationships ent.qid) := by
  constructor
  · rw [ERX.add_in_degree_info]
    apply ERX.annotate_rels_map
    intro r hr
    have hs : r.subject_qid ∈ (ERX.build_degree_graph relationships entities).nodes :=
      (ERX.build_graph_nodes_mem _ _ _).mpr (Or.inr ⟨r, hr, Or.inl rfl⟩)
    have ho : r.object_qid ∈ (ERX.build_degree_graph relationships entities).nodes :=
      (ERX.build_graph_nodes_mem _ _ _).mpr (Or.inr ⟨r, hr, Or.inr rfl⟩)
    have h1 := ERX.in_degree_build relationships entities r.subject_qid hs
    have h2 := ERX.in_degree_build relationships entities r.object_qid ho
    rw [ERX.annotate_one]
    simp [h1, h2]
  · intro ent hent
    exact ERX.in_degree_build _ _ _
      ((ERX.build_graph_nodes_mem _ _ _).mpr (Or.inl ⟨ent, hent, rfl⟩))

/-- C4. The triplet list built by the pair loops equals the
concatenation, over the unordered pairs `{i, j}` (`i < j`) in
enumeration order, of the forward direction's at-most-one triplet
followed by the backward direction's at-most-one triplet; and a
direction contributes no triplet exactly when its own discovery result
is empty — so a non-empty forward result never suppresses the backward
result. -/
theorem c4_bidirectional_pairs (getRels : ERX.Str → ERX.Str → List ERX.Fact)
    (processed : List ERX.Resolved) :
    ERX.find_relationships getRels processed =
      (ERX.ordered_pairs processed).flatMap (fun p =>
        (ERX.direction_triplet getRels p.1 p.2).toList ++
        (ERX.direction_triplet getRels p.2 p.1).toList) ∧
    ∀ a b : ERX.Resolved,
      (ERX.direction_triplet getRels a b = none ↔ getRels a.qid b.qid = []) := by
  constructor
  · induction processed with
    | nil => rfl
    | cons x xs ih =>
      rw [ERX.find_relationships, ERX.ordered_pairs, List.flatMap_append,
        List.flatMap_map, ih]
      have hpt : ERX.pair_triplets getRels x = fun y =>
          (ERX.direction_triplet getRels x y).toList ++
          (ERX.direction_triplet getRels y x).toList := by
        funext y
        rw [ERX.pair_triplets, ERX.direction_triplets_eq, ERX.direction_triplets_eq]
      rw [hpt]
  · intro a b
    rw [ERX.direction_triplet]
    cases h : getRels a.qid b.qid with
    | nil => simp [ERX.get_shortest_relationship]
    | cons f fs => simp [ERX.get_shortest_relationship]

/-- C7. When fewer than 2 spans are extracted, or fewer than 2 of them
resolve, the pipeline run returns the empty triplet sequence (and, the
embedding being total, it does so without raising). -/
theorem c7_insufficient_input (nlp : ERX.Str → List ERX.Ent)
    (search label : ERX.Str → Option ERX.Str)
    (getRels : ERX.Str → ERX.Str → List ERX.Fact) (text : ERX.Str) :
    ((ERX.extract_entities nlp text).length < 2 →
      ERX.extract_relationships nlp search label getRels text = some []) ∧
    ((ERX.process_entities search label (ERX.extract_entities nlp text)).length < 2 →
      ERX.extract_relationships nlp search label getRels text = some []) := by
  constructor
  · intro h
    rw [ERX.extract_relationships]
    simp only [if_pos h]
  · intro h
    rw [ERX.extract_relationships]
    by_cases h2 : (ERX.extract_entities nlp text).length < 2
    · simp only [if_pos h2]
    · simp only [if_neg h2, if_pos h]

/-- C8. Resolution and annotation copy before extending: after
`process_entities` the threaded states of all input span records equal
the inputs, every emitted resolved entity is a fresh record whose span
component is one of the input records with the looked-up identifier and
label added; after the annotation loop the threaded states of all input
triplet records equal the inputs, and the annotated output preserves
each triplet's fields. -/
theorem c8_no_mutation (search label : ERX.Str → Option ERX.Str) :
    (∀ entities : List ERX.Ent,
      (ERX.process_entities_tr search label entities).2 = entities) ∧
    (∀ (entities : List ERX.Ent) (r : ERX.Resolved),
      r ∈ ERX.process_entities search label entities →
      ∃ e ∈ entities, r.span = e ∧ search e.text = some r.qid ∧
        label r.qid = some r.wikidata_label) ∧
    (∀ (g : ERX.DG) (rels : List ERX.Triplet),
      (ERX.annotate_rels g rels).2 = rels) ∧
    (∀ (g : ERX.DG) (rels : List ERX.Triplet) (out : List ERX.TripletD),
      (ERX.annotate_rels g rels).1 = some out →
      out.map (fun td => td.base) = rels) := by
  have hstep : ∀ e : ERX.Ent, (ERX.resolve_step search label e).2 = e := by
    intro e
    cases hs : search e.text with
    | none => simp [ERX.resolve_step, hs]
    | some qid =>
      cases hl : label qid with
      | none => simp [ERX.resolve_step, hs, hl]
      | some lbl => simp [ERX.resolve_step, hs, hl]
  refine ⟨?_, ?_, ERX.annotate_rels_state, ERX.annotate_rels_bases⟩
  · intro entities
    induction entities with
    | nil => rfl
    | cons e rest ih => simp [ERX.process_entities_tr, hstep, ih]
  · intro entities r hr
    induction entities with
    | nil => cases hr
    | cons e rest ih =>
      rw [ERX.process_entities, ERX.process_entities_tr] at hr
      simp only [List.mem_append] at hr
      rcases hr with hr | hr
      · -- r comes from this iteration's copy
        cases hs : search e.text with
        | none => simp [ERX.resolve_step, hs] at hr
        | some qid =>
          cases hl : label qid with
          | none => simp [ERX.resolve_step, hs, hl] at hr
          | some lbl =>
            simp only [ERX.resolve_step, hs, hl, Option.toList_some,
              List.mem_singleton] at hr
            subst hr
            exact ⟨e, List.mem_cons_self _ _, rfl, hs, hl⟩
      · obtain ⟨e', he', hrest⟩ := ih hr
        exact ⟨e', List.mem_cons_of_mem _ he', hrest⟩

/-- Witness for C8's membership clause at a concrete run: the single
resolved record is the input span extended with its identifier and
label. -/
theorem c8_no_mutation_witness :
    (⟨⟨ERX.str "a", ERX.str "X", 0, 1⟩, ERX.str "Q1", ERX.str "A"⟩ : ERX.Resolved) ∈
      ERX.process_entities ERX.exSearch ERX.exLabel [⟨ERX.str "a", ERX.str "X", 0, 1⟩] ∧
    ∃ e ∈ [(⟨ERX.str "a", ERX.str "X", 0, 1⟩ : ERX.Ent)],
      (⟨⟨ERX.str "a", ERX.str "X", 0, 1⟩, ERX.str "Q1", ERX.str "A"⟩ :
        ERX.Resolved).span = e ∧
      ERX.exSearch e.text = some (ERX.str "Q1") ∧
      ERX.exLabel (ERX.str "Q1") = some (ERX.str "A") :=
  ⟨by decide,
    (c8_no_mutation ERX.exSearch ERX.exLabel).2.1
      [⟨ERX.str "a", ERX.str "X", 0, 1⟩]
      ⟨⟨ERX.str "a", ERX.str "X", 0, 1⟩, ERX.str "Q1", ERX.str "A"⟩ (by decide)⟩

/-- C9. Determinism with respect to the external collaborators: with
the NLP span function and the knowledge-base responses fixed, two
successive runs of the pipeline — the second starting from whatever
effect trace the first left behind — return the same triplet sequence;
no state a run touches feeds back into its result. -/
theorem c9_deterministic (nlp : ERX.Str → List ERX.Ent)
    (search label : ERX.Str → Option ERX.Str)
    (getRels : ERX.Str → ERX.Str → List ERX.Fact) (text : ERX.Str)
    (st : ERX.RunState) :
    (ERX.extract_relationships_run nlp search label getRels text
      ((ERX.extract_relationships_run nlp search label getRels text st).2)).1 =
    (ERX.extract_relationships_run nlp search label getRels text st).1 := by
  rw [ERX.extract_relationships_run_fst, ERX.extract_relationships_run_fst]

/-- C6 counterexample. A decodable payload whose search hit lacks the
`id` field — `{"search": [{}]}` — makes `search_entity` raise an
uncaught `KeyError` (the `except requests.RequestException` handler
does not cover it), so not every malformed payload is converted to the
miss value. -/
theorem c6_counterexample :
    ERX.search_entity_tr (.ok (.obj [(ERX.str "search", .arr [.obj []])])) =
      .error () := rfl

/-- C6 (amended). Transport failures covered by
`requests.RequestException` — timeout, non-success HTTP status,
undecodable body — are caught at the call site of every knowledge-base
call and become the corresponding miss value (absence for entity
search, label lookup and property lookup; the empty list for
relationship discovery); a decoded payload missing the expected
top-level key is likewise a miss.  (A decoded payload with unexpected
inner structure can still raise, per the counterexample.) -/
theorem c6_transport_absorbed (te : ERX.TErr) (qid pid subject_qid object_qid : ERX.Str)
    (propResp : ERX.Str → Except ERX.TErr ERX.J) (d : List (ERX.Str × ERX.J)) :
    ERX.search_entity_tr (.error te) = .ok none ∧
    ERX.get_entity_label_tr (.error te) qid = .ok none ∧
    ERX.get_property_label_tr (.error te) pid = .ok none ∧
    ERX.get_relationships_tr (.error te) propResp subject_qid object_qid = .ok [] ∧
    (ERX.lk d (ERX.str "search") = none →
      ERX.search_entity_tr (.ok (.obj d)) = .ok none) := by
  refine ⟨rfl, rfl, rfl, rfl, ?_⟩
  intro h
  simp [ERX.search_entity_tr, ERX.inOp, h]

/-- C10 counterexample. A claim whose datavalue is entity-typed but
lacks the `value` field — `{'mainsnak': {'datavalue': {'type':
'wikibase-entityid'}}}` — makes the claim loop raise an uncaught
`KeyError` at `datavalue['value']['id']`, so relationship discovery is
not total over the payload's shape. -/
theorem c10_counterexample :
    ERX.process_claim (fun _ => .ok none) (ERX.str "Q2") (ERX.str "P1")
      (.obj [(ERX.str "mainsnak", .obj [(ERX.str "datavalue",
        .obj [(ERX.str "type", .jstr (ERX.str "wikibase-entityid"))])])]) =
      .error () := rfl

/-- C10 (amended). A claim lacking a `mainsnak`, a mainsnak lacking a
`datavalue`, or a datavalue whose `type` is not `wikibase-entityid` is
skipped without raising and contributes no fact; and whenever the claim
loop body returns normally with a fact, the claim is entity-valued with
target identifier equal to the object identifier and a truthy resolved
property label.  (An entity-typed datavalue lacking its `value`
identifier raises, per the counterexample.) -/
theorem c10_claim_shape (getPropLabel : ERX.Str → Except Unit (Option ERX.J))
    (object_qid pid : ERX.Str) :
    (∀ d : List (ERX.Str × ERX.J), ERX.lk d (ERX.str "mainsnak") = none →
      ERX.process_claim getPropLabel object_qid pid (.obj d) = .ok []) ∧
    (∀ (d md : List (ERX.Str × ERX.J)),
      ERX.lk d (ERX.str "mainsnak") = some (.obj md) →
      ERX.lk md (ERX.str "datavalue") = none →
      ERX.process_claim getPropLabel object_qid pid (.obj d) = .ok []) ∧
    (∀ (d md dv : List (ERX.Str × ERX.J)),
      ERX.lk d (ERX.str "mainsnak") = some (.obj md) →
      ERX.lk md (ERX.str "datavalue") = some (.obj dv) →
      (∀ ty, ERX.lk dv (ERX.str "type") = some ty →
        ty ≠ .jstr (ERX.str "wikibase-entityid")) →
      ERX.process_claim getPropLabel object_qid pid (.obj d) = .ok []) ∧
    (∀ (claim : ERX.J) (l : List (ERX.J × ERX.Str)),
      ERX.process_claim getPropLabel object_qid pid claim = .ok l →
      l = [] ∨ ∃ lbl, l = [(lbl, pid)] ∧ ERX.ClaimYields object_qid claim ∧
        getPropLabel pid = .ok (some lbl) ∧ ERX.truthy lbl = true) := by
  refine ⟨?_, ?_, ?_, ?_⟩
  · intro d h
    simp [ERX.process_claim, ERX.inOp, h]
  · intro d md h1 h2
    simp [ERX.process_claim, ERX.inOp, ERX.getItem, h1, h2]
  · intro d md dv h1 h2 h3
    simp only [ERX.process_claim, ERX.inOp, ERX.getItem, ERX.dotGet, h1, h2,
      Option.isSome_some, if_true]
    cases hty : ERX.lk dv (ERX.str "type") with
    | none => rfl
    | some ty =>
      have hne := h3 ty hty
      cases ty with
      | jstr s =>
        have hs : s ≠ ERX.str "wikibase-entityid" := by
          intro hc
          exact hne (by rw [hc])
        simp [hs]
      | obj o => rfl
      | arr a => rfl
      | jnum n => rfl
      | jbool b => rfl
      | jnull => rfl
  · intro claim l h
    rw [ERX.process_claim] at h
    cases h1 : ERX.inOp (ERX.str "mainsnak") claim with
    | error e => simp only [h1] at h; exact Except.noConfusion h
    | ok b1 =>
      cases b1 with
      | false => simp only [h1, if_false, Bool.false_eq_true] at h
                 injection h with h'; exact Or.inl h'.symm
      | true =>
        simp only [h1, if_true] at h
        cases h2 : ERX.getItem claim (ERX.str "mainsnak") with
        | error e => simp only [h2] at h; exact Except.noConfusion h
        | ok ms =>
          simp only [h2] at h
          cases h3 : ERX.inOp (ERX.str "datavalue") ms with
          | error e => simp only [h3] at h; exact Except.noConfusion h
          | ok b2 =>
            cases b2 with
            | false => simp only [h3, if_false, Bool.false_eq_true] at h
                       injection h with h'; exact Or.inl h'.symm
            | true =>
              simp only [h3, if_true] at h
              cases h4 : ERX.getItem ms (ERX.str "datavalue") with
              | error e => simp only [h4] at h; exact Except.noConfusion h
              | ok datavalue =>
                simp only [h4] at h
                cases h5 : ERX.dotGet datavalue (ERX.str "type") with
                | error e => simp only [h5] at h; exact Except.noConfusion h
                | ok t =>
                  cases t with
                  | none => simp only [h5] at h
                            injection h with h'; exact Or.inl h'.symm
                  | some ty =>
                    cases ty with
                    | obj o => simp only [h5] at h
                               injection h with h'; exact Or.inl h'.symm
                    | arr a => simp only [h5] at h
                               injection h with h'; exact Or.inl h'.symm
                    | jnum n => simp only [h5] at h
                                injection h with h'; exact Or.inl h'.symm
                    | jbool b => simp only [h5] at h
                                 injection h with h'; exact Or.inl h'.symm
                    | jnull => simp only [h5] at h
                               injection h with h'; exact Or.inl h'.symm
                    | jstr s =>
                      simp only [h5] at h
                      by_cases hs : s = ERX.str "wikibase-entityid"
                      · rw [if_pos hs] at h
                        cases h6 : ERX.getItem datavalue (ERX.str "value") with
                        | error e => simp only [h6] at h; exact Except.noConfusion h
                        | ok value =>
                          simp only [h6] at h
                          cases h7 : ERX.getItem value (ERX.str "id") with
                          | error e => simp only [h7] at h; exact Except.noConfusion h
                          | ok target =>
                            cases target with
                            | obj o => simp only [h7] at h
                                       injection h with h'; exact Or.inl h'.symm
                            | arr a => simp only [h7] at h
                                       injection h with h'; exact Or.inl h'.symm
                            | jnum n => simp only [h7] at h
                                        injection h with h'; exact Or.inl h'.symm
                            | jbool b => simp only [h7] at h
                                         injection h with h'; exact Or.inl h'.symm
                            | jnull => simp only [h7] at h
                                       injection h with h'; exact Or.inl h'.symm
                            | jstr tq =>
                              simp only [h7] at h
                              by_cases htq : tq = object_qid
                              · rw [if_pos htq] at h
                                cases h8 : getPropLabel pid with
                                | error e => simp only [h8] at h; exact Except.noConfusion h
                                | ok plabel =>
                                  cases plabel with
                                  | none => simp only [h8] at h
                                            injection h with h'; exact Or.inl h'.symm
                                  | some lbl =>
                                    simp only [h8] at h
                                    cases htr : ERX.truthy lbl with
                                    | false =>
                                      rw [htr] at h
                                      simp only [if_false, Bool.false_eq_true] at h
                                      injection h with h'
                                      exact Or.inl h'.symm
                                    | true =>
                                      rw [htr] at h
                                      simp only [if_true] at h
                                      injection h with h'
                                      refine Or.inr ⟨lbl, h'.symm,
                                        ⟨ms, datavalue, value, h2, h4, ?_, h6, ?_⟩,
                                        rfl, htr⟩
                                      · rw [h5, hs]
                                      · rw [← htq]; exact h7
                              · rw [if_neg htq] at h
                                injection h with h'
                                exact Or.inl h'.symm
                      · rw [if_neg hs] at h
                        injection h with h'
                        exact Or.inl h'.symm
